import Mathlib

/-!
# Fort Nelson wildfire pilot: burn-severity script

A shallow embedding of `gee.script.js`.  The script describes a per-pixel
raster computation: every image operation acts on one pixel at a time, so an
image is modelled by the value it has at one pixel and a region by the list of
its pixels.  Band values are exact rationals; a masked band is `none`.
-/

set_option autoImplicit false

namespace FortNelson

/-! ## Raster primitives used by the script -/

/-- A pixel of a multi-band image: every band is masked (`none`) or has a value. -/
abbrev Pixel := String → Option ℚ

/-- A pixel of a single-band image: the band name and its value, if unmasked. -/
structure Band where
  name : String
  value : Option ℚ
deriving DecidableEq

/-- Band selection, `image.select(b)`. -/
def Pixel.select (image : Pixel) (b : String) : Band := ⟨b, image b⟩

/-- Renaming of a single band, `image.rename(n)`. -/
def Band.rename (x : Band) (n : String) : Band := ⟨n, x.value⟩

/-- A binary per-pixel operation: the result is masked where either input is
masked and is named after the first input. -/
def Band.binop (f : ℚ → ℚ → ℚ) (x y : Band) : Band :=
  ⟨x.name, match x.value, y.value with
    | some a, some b => some (f a b)
    | _, _ => none⟩

/-- Per-pixel `subtract`. -/
def Band.subtract (x y : Band) : Band := Band.binop (fun a b => a - b) x y

/-- Per-pixel `add`. -/
def Band.add (x y : Band) : Band := Band.binop (fun a b => a + b) x y

/-- Per-pixel `multiply`. -/
def Band.multiply (x y : Band) : Band := Band.binop (fun a b => a * b) x y

/-- Per-pixel `divide`; the raster division yields 0 where the divisor is 0. -/
def Band.divide (x y : Band) : Band :=
  Band.binop (fun a b => if b = 0 then 0 else a / b) x y

/-- Per-pixel `or`: 1 iff either input is non-zero. -/
def Band.or (x y : Band) : Band :=
  Band.binop (fun a b => if a ≠ 0 ∨ b ≠ 0 then 1 else 0) x y

/-- Per-pixel comparison with a constant, `image.eq(c)`: 1 iff equal. -/
def Band.eq (x : Band) (c : ℚ) : Band :=
  ⟨x.name, x.value.map (fun v => if v = c then 1 else 0)⟩

/-- The mask update `image.updateMask(m)`: a band stays where the mask is
unmasked and non-zero; the band values themselves are not touched. -/
def Pixel.updateMask (image : Pixel) (m : Band) : Pixel := fun b =>
  match m.value with
  | some v => if v ≠ 0 then image b else none
  | none => none

/-! ## Temporal window (lines 9-37) -/

/-- Milliseconds in one day. -/
def msPerDay : ℤ := 86400000

/-- Days from 1970-01-01 to the civil date `y-m-d` of the proleptic Gregorian
calendar. -/
def daysFromCivil (y m d : ℕ) : ℤ :=
  let y1 : ℕ := if m ≤ 2 then y - 1 else y
  let era : ℕ := y1 / 400
  let yoe : ℕ := y1 - era * 400
  let mp : ℕ := if m > 2 then m - 3 else m + 9
  let doy : ℕ := (153 * mp + 2) / 5 + d - 1
  let doe : ℕ := yoe * 365 + yoe / 4 - yoe / 100 + doy
  ((era * 146097 + doe : ℕ) : ℤ) - 719468

/-- The civil date of a day count, inverse of `daysFromCivil`. -/
def civilFromDays (z : ℤ) : ℕ × ℕ × ℕ :=
  let z1 : ℕ := (z + 719468).toNat
  let era : ℕ := z1 / 146097
  let doe : ℕ := z1 - era * 146097
  let yoe : ℕ := (doe - doe / 1460 + doe / 36524 - doe / 146096) / 365
  let doy : ℕ := doe - (365 * yoe + yoe / 4 - yoe / 100)
  let mp : ℕ := (5 * doy + 2) / 153
  let d : ℕ := doy - (153 * mp + 2) / 5 + 1
  let m : ℕ := if mp < 10 then mp + 3 else mp - 9
  let y : ℕ := yoe + era * 400
  (if m ≤ 2 then y + 1 else y, m, d)

/-- A date, `ee.Date('y-m-d')`: milliseconds since the epoch at 00:00 UTC. -/
def eeDate (y m d : ℕ) : ℤ := daysFromCivil y m d * msPerDay

/-- The calendar day a timestamp falls on. -/
def dateOf (t : ℤ) : ℕ × ℕ × ℕ := civilFromDays (t / msPerDay)

/-- The date shift `date.advance(delta, 'day')`. -/
def advanceDay (date : ℤ) (delta : ℤ) : ℤ := date + delta * msPerDay

/-- The script's `FIRE_DATE`. -/
def FIRE_DATE : ℤ := eeDate 2024 5 10

/-- The script's `PRE_START`. -/
def PRE_START : ℤ := advanceDay FIRE_DATE (-40)

/-- The script's `PRE_END`. -/
def PRE_END : ℤ := advanceDay FIRE_DATE (-20)

/-- The script's `POST_START`. -/
def POST_START : ℤ := FIRE_DATE

/-- The script's `POST_END`. -/
def POST_END : ℤ := advanceDay FIRE_DATE 61

/-- The collection filter `filterDate(start, end)` on an acquisition time:
start inclusive, end exclusive. -/
def filterDate (start stop : ℤ) (t : ℤ) : Bool := decide (start ≤ t) && decide (t < stop)

/-- Membership of an acquisition time in the window of `preFireCollection`. -/
def preFireWindow (t : ℤ) : Bool := filterDate PRE_START PRE_END t

/-- Membership of an acquisition time in the window of `postFireCollection`. -/
def postFireWindow (t : ℤ) : Bool := filterDate POST_START POST_END t

/-! ## Cloud masking (lines 44-62) -/

/-- The local `validMask` of `maskBySCL`. -/
def validMask (image : Pixel) : Band :=
  let scl := image.select "SCL"
  (((((scl.eq 2).or (scl.eq 4)).or (scl.eq 5)).or (scl.eq 6)).or (scl.eq 7)).or (scl.eq 11)

/-- The script's `maskBySCL`. -/
def maskBySCL (image : Pixel) : Pixel := image.updateMask (validMask image)

/-! ## NBR and dNBR (lines 92-108) -/

/-- The script's `calculateNBR`. -/
def calculateNBR (image : Pixel) : Band :=
  let nir := image.select "B8"
  let swir2 := image.select "B12"
  ((nir.subtract swir2).divide (nir.add swir2)).rename "NBR"

/-- The script's `dNBR` at a pixel inside the fire perimeter, from the two composites. -/
def dNBR (preImage postImage : Pixel) : Band :=
  ((calculateNBR preImage).subtract (calculateNBR postImage)).rename "dNBR"

/-! ## Burn severity (lines 139-162) -/

/-- The thresholding expression of `burnSeverity`, over any ordered field. -/
def severityExpr {K : Type} [LinearOrderedField K] (d : K) : ℕ :=
  if d < -0.500 then 0
  else if d < -0.251 then 1
  else if d < -0.101 then 2
  else if d < 0.100 then 3
  else if d < 0.270 then 4
  else if d < 0.440 then 5
  else if d < 0.660 then 6
  else 7

/-- The script's `burnSeverity` at a pixel inside the fire perimeter. -/
def burnSeverity (preImage postImage : Pixel) : Band :=
  ⟨"severity", (dNBR preImage postImage).value.map (fun d => ((severityExpr d : ℕ) : ℚ))⟩

/-- The script's `severityPalette`. -/
def severityPalette : List String :=
  ["#006400", "#7FFF00", "#FFFFCC", "#FFFF00", "#FEC965", "#FD8D3C", "#B10026", "#4B0000"]

/-! ## Legend (lines 175-206) -/

/-- The script's `severityLabels`. -/
def severityLabels : List String :=
  ["High Regrowth", "Low Regrowth", "Unburned", "Low Severity", "Moderate-Low Severity",
   "Moderate-High Severity", "High Severity", "Extreme Severity"]

/-- The rows added to the legend by `severityPalette.forEach`: the colour and
`severityLabels[i]`, which is undefined (`none`) past the end of the array. -/
def legendRows : List (String × Option String) :=
  severityPalette.enum.map (fun ic => (ic.2, severityLabels[ic.1]?))

/-! ## Area per severity class (lines 215-263) -/

/-- The list `ee.List.sequence(a, b)` with step 1. -/
def eeListSequence (a b : ℕ) : List ℕ := (List.range (b + 1 - a)).map (fun i => a + i)

/-- The script's `severityClasses`. -/
def severityClasses : List ℕ := eeListSequence 0 7

/-- A pixel position inside the fire perimeter: its area in square metres
(`ee.Image.pixelArea()`) and the two composites there. -/
structure Site where
  pixelArea : ℚ
  preImage : Pixel
  postImage : Pixel

/-- The local `areaImage` of `computeAreaByClass` at one pixel. -/
def areaImage (classValue : ℕ) (s : Site) : Band :=
  (((burnSeverity s.preImage s.postImage).eq (classValue : ℚ)).multiply
    ⟨"area", some s.pixelArea⟩).rename "area_m2"

/-- The reduction `reduceRegion` with `ee.Reducer.sum()`: masked pixels do not
contribute, and the sum of no pixel is 0. -/
def reduceRegionSum (values : List (Option ℚ)) : ℚ := (values.filterMap id).sum

/-- A feature of `areaBySeverity`. -/
structure AreaFeature where
  severity_class : ℕ
  area_m2 : ℚ
deriving DecidableEq

/-- The script's `computeAreaByClass` over the pixels of the fire perimeter. -/
def computeAreaByClass (region : List Site) (classValue : ℕ) : AreaFeature :=
  { severity_class := classValue
    area_m2 := reduceRegionSum (region.map (fun s => (areaImage classValue s).value)) }

/-- The script's `areaBySeverity`. -/
def areaBySeverity (region : List Site) : List AreaFeature :=
  severityClasses.map (computeAreaByClass region)

/-- The scalar division `ee.Number.divide`; a zero divisor gives no usable
number, which is recorded as `none`. -/
def eeDivide (a b : ℚ) : Option ℚ := if b = 0 then none else some (a / b)

/-- The collection sum `aggregate_sum('area_m2')`. -/
def aggregate_sum (fc : List AreaFeature) : ℚ := (fc.map (fun f => f.area_m2)).sum

/-- The script's `totalAreaKm2`. -/
def totalAreaKm2 (fc : List AreaFeature) : Option ℚ := eeDivide (aggregate_sum fc) 1000000

/-- A feature of `areaStatsFinal`. -/
structure StatsFeature where
  severity_class : ℕ
  area_m2 : ℚ
  area_km2 : Option ℚ
  percent_of_fire : Option ℚ
deriving DecidableEq

/-- The function mapped over `areaBySeverity` to build `areaStatsFinal`. -/
def addPercent (total : Option ℚ) (feature : AreaFeature) : StatsFeature :=
  let areaKm2 := eeDivide feature.area_m2 1000000
  let percent : Option ℚ :=
    total.bind (fun t =>
      if t > 0 then areaKm2.bind (fun a => (eeDivide a t).map (fun q => q * 100))
      else some 0)
  { severity_class := feature.severity_class
    area_m2 := feature.area_m2
    area_km2 := areaKm2
    percent_of_fire := percent }

/-- The script's `areaStatsFinal`. -/
def areaStatsFinal (fc : List AreaFeature) : List StatsFeature :=
  fc.map (addPercent (totalAreaKm2 fc))

/-! ## Labels for export (lines 270-284) -/

/-- The script's `severityLabelDict`.  The keys 0..7 of the object literal are
kept as the class numbers, and `get(cls)` is the lookup of the class number
`cls` among them. -/
def severityLabelDict : List (ℕ × String) :=
  [(0, "High Regrowth"), (1, "Low Regrowth"), (2, "Unburned"), (3, "Low Severity"),
   (4, "Moderate-Low Severity"), (5, "Moderate-High Severity"), (6, "High Severity"),
   (7, "Extreme Severity")]

/-- A feature of `areaStatsLabeled`; a missing dictionary entry is `none`. -/
structure LabeledFeature where
  stats : StatsFeature
  severity_label : Option String
deriving DecidableEq

/-- The script's `areaStatsLabeled`. -/
def areaStatsLabeled (fc : List StatsFeature) : List LabeledFeature :=
  fc.map (fun feature =>
    let cls := feature.severity_class
    { stats := feature, severity_label := severityLabelDict.lookup cls })

/-! ## Quantities the specification speaks of -/

/-- The area of all pixels inside the fire perimeter, masked or not. -/
def perimeterArea (region : List Site) : ℚ := (region.map (fun s => s.pixelArea)).sum

/-- The area of the pixels inside the fire perimeter whose dNBR is not masked. -/
def observedArea (region : List Site) : ℚ :=
  ((region.filter (fun s => (dNBR s.preImage s.postImage).value.isSome)).map
    (fun s => s.pixelArea)).sum

/-- The severity class of a pixel inside the fire perimeter, if its dNBR is not masked. -/
def siteClass (s : Site) : Option ℕ :=
  (dNBR s.preImage s.postImage).value.map (fun d => severityExpr d)

/-- The area of the pixels inside the fire perimeter that fall in one severity class. -/
def classArea (region : List Site) (c : ℕ) : ℚ :=
  ((region.filter (fun s => decide (siteClass s = some c))).map (fun s => s.pixelArea)).sum

/-- The pixel with the given near-infrared (B8), short-wave infrared (B12) and
scene-classification (SCL) values and no other band. -/
def samplePixel (b8 b12 scl : ℚ) : Pixel := fun b =>
  if b = "B8" then some b8 else if b = "B12" then some b12
  else if b = "SCL" then some scl else none

/-- A pixel with every band masked. -/
def maskedPixel : Pixel := fun _ => none

/-- A perimeter of two pixels of 100 square metres each: one unchanged by the
fire, one with no cloud-free observation after it. -/
def sampleRegion : List Site :=
  [⟨100, samplePixel 3000 1000 4, samplePixel 3000 1000 4⟩,
   ⟨100, samplePixel 3000 1000 4, maskedPixel⟩]

/-- Class areas used to exercise the percentage computation: three quarters of
the fire in class 3 and one quarter in class 6. -/
def sampleAreas : List AreaFeature :=
  [⟨0, 0⟩, ⟨1, 0⟩, ⟨2, 0⟩, ⟨3, 3000000⟩, ⟨4, 0⟩, ⟨5, 0⟩, ⟨6, 1000000⟩, ⟨7, 0⟩]

/-- Class areas of a perimeter in which no pixel was observed. -/
def emptyAreas : List AreaFeature :=
  [⟨0, 0⟩, ⟨1, 0⟩, ⟨2, 0⟩, ⟨3, 0⟩, ⟨4, 0⟩, ⟨5, 0⟩, ⟨6, 0⟩, ⟨7, 0⟩]

end FortNelson

/-! ## Theorems -/

namespace FortNelson

/-- The value of `calculateNBR` in terms of the two bands it reads. -/
theorem calculateNBR_value (image : Pixel) :
    (calculateNBR image).value =
      match image "B8", image "B12" with
      | some nir, some swir2 =>
          some (if nir + swir2 = 0 then 0 else (nir - swir2) / (nir + swir2))
      | _, _ => none := by
  unfold calculateNBR Band.rename Band.divide Band.subtract Band.add Band.binop Pixel.select
  cases image "B8" <;> cases image "B12" <;> rfl

/-- The value of `dNBR` in terms of the two NBR values. -/
theorem dNBR_value (preImage postImage : Pixel) :
    (dNBR preImage postImage).value =
      match (calculateNBR preImage).value, (calculateNBR postImage).value with
      | some a, some b => some (a - b)
      | _, _ => none := by
  unfold dNBR Band.rename Band.subtract Band.binop
  cases (calculateNBR preImage).value <;> cases (calculateNBR postImage).value <;> rfl

/-- C1: for a pixel whose B8 (NIR) and B12 (SWIR2) values have a non-zero sum,
`calculateNBR` returns a band named 'NBR' whose value is exactly
(NIR - SWIR2) / (NIR + SWIR2). -/
theorem calculateNBR_matches_definition (image : Pixel) (nir swir2 : ℚ)
    (hnir : image "B8" = some nir) (hswir : image "B12" = some swir2)
    (hsum : nir + swir2 ≠ 0) :
    calculateNBR image = ⟨"NBR", some ((nir - swir2) / (nir + swir2))⟩ := by
  have hv := calculateNBR_value image
  rw [hnir, hswir] at hv
  simp only [if_neg hsum] at hv
  have hn : (calculateNBR image).name = "NBR" := rfl
  cases hc : calculateNBR image with
  | mk n v =>
    rw [hc] at hv hn
    simp only at hv hn
    rw [hv, hn]

/-- Witness of C1 at NIR = 3000, SWIR2 = 1000, where NBR = 1/2. -/
theorem calculateNBR_matches_definition_witness :
    calculateNBR (samplePixel 3000 1000 4) = ⟨"NBR", some ((3000 - 1000) / (3000 + 1000))⟩ :=
  calculateNBR_matches_definition (samplePixel 3000 1000 4) 3000 1000 (by simp [samplePixel])
    (by simp [samplePixel]) (by norm_num)

/-- C2: at every pixel dNBR is the band 'dNBR' holding the pre-fire NBR minus
the post-fire NBR (masked where either is masked), and swapping the two
composites negates it; where both NBR values are defined, dNBR is positive
exactly when NBR dropped after the fire and zero exactly when it is unchanged. -/
theorem dNBR_is_pre_minus_post (preImage postImage : Pixel) :
    (dNBR preImage postImage).name = "dNBR" ∧
    (dNBR preImage postImage).value =
      (match (calculateNBR preImage).value, (calculateNBR postImage).value with
        | some a, some b => some (a - b)
        | _, _ => none) ∧
    (dNBR postImage preImage).value = (dNBR preImage postImage).value.map (fun d => -d) ∧
    ∀ a b : ℚ, (calculateNBR preImage).value = some a → (calculateNBR postImage).value = some b →
      ∃ d, dNBR preImage postImage = ⟨"dNBR", some d⟩ ∧ d = a - b ∧
        (0 < d ↔ b < a) ∧ (d = 0 ↔ a = b) ∧
        dNBR postImage preImage = ⟨"dNBR", some (-d)⟩ := by
  have hv := dNBR_value preImage postImage
  have hw := dNBR_value postImage preImage
  refine ⟨rfl, hv, ?_, ?_⟩
  · rw [hv, hw]
    cases (calculateNBR preImage).value <;> cases (calculateNBR postImage).value <;>
      simp
  · intro a b hpre hpost
    rw [hpre, hpost] at hv hw
    have h1 : dNBR preImage postImage = ⟨"dNBR", some (a - b)⟩ := by
      have hn : (dNBR preImage postImage).name = "dNBR" := rfl
      cases hc : dNBR preImage postImage with
      | mk n v =>
        rw [hc] at hv hn
        simp only at hv hn
        rw [hv, hn]
    have h2 : dNBR postImage preImage = ⟨"dNBR", some (b - a)⟩ := by
      have hn : (dNBR postImage preImage).name = "dNBR" := rfl
      cases hc : dNBR postImage preImage with
      | mk n v =>
        rw [hc] at hw hn
        simp only at hw hn
        rw [hw, hn]
    refine ⟨a - b, h1, rfl, sub_pos, sub_eq_zero, ?_⟩
    rw [h2, neg_sub]

/-- Witness of C2: NBR drops from 1/2 before the fire to -1/2 after it, so
dNBR is 1, and -1 with the composites swapped. -/
theorem dNBR_is_pre_minus_post_witness :
    ∃ d, dNBR (samplePixel 3000 1000 4) (samplePixel 1000 3000 4) = ⟨"dNBR", some d⟩ ∧
      d = 1 / 2 - -1 / 2 ∧ (0 < d ↔ (-1 / 2 : ℚ) < 1 / 2) ∧ (d = 0 ↔ (1 / 2 : ℚ) = -1 / 2) ∧
      dNBR (samplePixel 1000 3000 4) (samplePixel 3000 1000 4) = ⟨"dNBR", some (-d)⟩ :=
  (dNBR_is_pre_minus_post (samplePixel 3000 1000 4) (samplePixel 1000 3000 4)).2.2.2
    (1 / 2) (-1 / 2)
    (by rw [calculateNBR_value]; simp [samplePixel]; norm_num)
    (by rw [calculateNBR_value]; simp [samplePixel]; norm_num)

/-- A chain of seven increasing threshold tests splits an ordered field into
eight consecutive intervals. -/
theorem threshold_chain_spec {K : Type} [LinearOrderedField K] (a1 a2 a3 a4 a5 a6 a7 d : K)
    (t1 : a1 < a2) (t2 : a2 < a3) (t3 : a3 < a4) (t4 : a4 < a5) (t5 : a5 < a6) (t6 : a6 < a7)
    (c : ℕ)
    (hc : c = if d < a1 then 0 else if d < a2 then 1 else if d < a3 then 2
      else if d < a4 then 3 else if d < a5 then 4 else if d < a6 then 5
      else if d < a7 then 6 else 7) :
    c ≤ 7 ∧ (c = 0 ↔ d < a1) ∧ (c = 1 ↔ a1 ≤ d ∧ d < a2) ∧ (c = 2 ↔ a2 ≤ d ∧ d < a3) ∧
    (c = 3 ↔ a3 ≤ d ∧ d < a4) ∧ (c = 4 ↔ a4 ≤ d ∧ d < a5) ∧ (c = 5 ↔ a5 ≤ d ∧ d < a6) ∧
    (c = 6 ↔ a6 ≤ d ∧ d < a7) ∧ (c = 7 ↔ a7 ≤ d) := by
  subst hc
  split_ifs with h0 h1 h2 h3 h4 h5 h6 <;> simp only [not_lt] at * <;>
    simp [*, not_lt, not_le] <;>
    (repeat' constructor) <;> intros <;> linarith

set_option maxHeartbeats 2000000 in
/-- A chain of seven increasing threshold tests is monotone in the tested value. -/
theorem threshold_chain_mono {K : Type} [LinearOrderedField K] (a1 a2 a3 a4 a5 a6 a7 d e : K)
    (t1 : a1 < a2) (t2 : a2 < a3) (t3 : a3 < a4) (t4 : a4 < a5) (t5 : a5 < a6) (t6 : a6 < a7)
    (hde : d ≤ e) :
    (if d < a1 then 0 else if d < a2 then 1 else if d < a3 then 2
      else if d < a4 then 3 else if d < a5 then 4 else if d < a6 then 5
      else if d < a7 then 6 else (7 : ℕ)) ≤
    (if e < a1 then 0 else if e < a2 then 1 else if e < a3 then 2
      else if e < a4 then 3 else if e < a5 then 4 else if e < a6 then 5
      else if e < a7 then 6 else (7 : ℕ)) := by
  split_ifs <;> first | omega | (exfalso; linarith)

/-- The class of `severityExpr` as a chain of threshold tests, over any ordered field. -/
theorem severityExpr_spec {K : Type} [LinearOrderedField K] (d : K) :
    severityExpr d ≤ 7 ∧
    (severityExpr d = 0 ↔ d < -0.500) ∧
    (severityExpr d = 1 ↔ -0.500 ≤ d ∧ d < -0.251) ∧
    (severityExpr d = 2 ↔ -0.251 ≤ d ∧ d < -0.101) ∧
    (severityExpr d = 3 ↔ -0.101 ≤ d ∧ d < 0.100) ∧
    (severityExpr d = 4 ↔ 0.100 ≤ d ∧ d < 0.270) ∧
    (severityExpr d = 5 ↔ 0.270 ≤ d ∧ d < 0.440) ∧
    (severityExpr d = 6 ↔ 0.440 ≤ d ∧ d < 0.660) ∧
    (severityExpr d = 7 ↔ 0.660 ≤ d) :=
  threshold_chain_spec (-0.500) (-0.251) (-0.101) 0.100 0.270 0.440 0.660 d
    (by norm_num) (by norm_num) (by norm_num) (by norm_num) (by norm_num) (by norm_num)
    (severityExpr d) rfl

/-- The class of `severityExpr` does not decrease when its argument grows. -/
theorem severityExpr_mono {K : Type} [LinearOrderedField K] (d e : K) (hde : d ≤ e) :
    severityExpr d ≤ severityExpr e :=
  threshold_chain_mono (-0.500) (-0.251) (-0.101) 0.100 0.270 0.440 0.660 d e
    (by norm_num) (by norm_num) (by norm_num) (by norm_num) (by norm_num) (by norm_num) hde

/-- C3: for every real d the thresholding expression of `burnSeverity` yields
one class in 0..7, and the reals mapped to the classes 0..7 are exactly the
intervals (-inf,-0.500), [-0.500,-0.251), [-0.251,-0.101), [-0.101,0.100),
[0.100,0.270), [0.270,0.440), [0.440,0.660), [0.660,+inf); the class is
non-decreasing in d. -/
theorem severity_bins_contiguous_exhaustive (d : ℝ) :
    severityExpr d ∈ Finset.range 8 ∧
    (severityExpr d = 0 ↔ d ∈ Set.Iio (-0.500 : ℝ)) ∧
    (severityExpr d = 1 ↔ d ∈ Set.Ico (-0.500 : ℝ) (-0.251)) ∧
    (severityExpr d = 2 ↔ d ∈ Set.Ico (-0.251 : ℝ) (-0.101)) ∧
    (severityExpr d = 3 ↔ d ∈ Set.Ico (-0.101 : ℝ) 0.100) ∧
    (severityExpr d = 4 ↔ d ∈ Set.Ico (0.100 : ℝ) 0.270) ∧
    (severityExpr d = 5 ↔ d ∈ Set.Ico (0.270 : ℝ) 0.440) ∧
    (severityExpr d = 6 ↔ d ∈ Set.Ico (0.440 : ℝ) 0.660) ∧
    (severityExpr d = 7 ↔ d ∈ Set.Ici (0.660 : ℝ)) ∧
    (∀ e : ℝ, d ≤ e → severityExpr d ≤ severityExpr e) := by
  obtain ⟨hle, h0, h1, h2, h3, h4, h5, h6, h7⟩ := severityExpr_spec d
  refine ⟨?_, ?_, ?_, ?_, ?_, ?_, ?_, ?_, ?_, fun e hde => severityExpr_mono d e hde⟩
  · exact Finset.mem_range.mpr (Nat.lt_succ_of_le hle)
  · simpa only [Set.mem_Iio] using h0
  · simpa only [Set.mem_Ico] using h1
  · simpa only [Set.mem_Ico] using h2
  · simpa only [Set.mem_Ico] using h3
  · simpa only [Set.mem_Ico] using h4
  · simpa only [Set.mem_Ico] using h5
  · simpa only [Set.mem_Ico] using h6
  · simpa only [Set.mem_Ici] using h7

/-- Witness of C3: the class of d = 0 does not exceed the class of d = 1. -/
theorem severity_bins_contiguous_exhaustive_witness :
    severityExpr (0 : ℝ) ≤ severityExpr (1 : ℝ) :=
  (severity_bins_contiguous_exhaustive 0).2.2.2.2.2.2.2.2.2 1 (by norm_num)

/-- The value of the valid mask in terms of the SCL value. -/
theorem validMask_value (image : Pixel) (x : ℚ) (h : image "SCL" = some x) :
    (validMask image).value =
      some (if x = 2 ∨ x = 4 ∨ x = 5 ∨ x = 6 ∨ x = 7 ∨ x = 11 then 1 else 0) := by
  simp only [validMask, Band.or, Band.eq, Band.binop, Pixel.select, h, Option.map_some']
  by_cases h2 : x = 2 <;> by_cases h4 : x = 4 <;> by_cases h5 : x = 5 <;>
    by_cases h6 : x = 6 <;> by_cases h7 : x = 7 <;> by_cases h11 : x = 11 <;>
    simp [h2, h4, h5, h6, h7, h11]

/-- The valid mask is masked where the SCL band is masked. -/
theorem validMask_masked (image : Pixel) (h : image "SCL" = none) :
    (validMask image).value = none := by
  simp [validMask, Band.or, Band.eq, Band.binop, Pixel.select, h]

/-- C7: for every integer SCL value v the valid mask of `maskBySCL` is 1 iff v
is one of 2, 4, 5, 6, 7, 11 and 0 otherwise; a pixel with such a value keeps
every band value unchanged, any other pixel is masked out, in particular the
classes 0, 1, 3 (cloud shadow), 8, 9 (cloud) and 10 (cirrus). -/
theorem maskBySCL_keeps_valid_classes (image : Pixel) (v : ℤ)
    (hscl : image "SCL" = some (v : ℚ)) :
    ((validMask image).value = some 1 ↔ v = 2 ∨ v = 4 ∨ v = 5 ∨ v = 6 ∨ v = 7 ∨ v = 11) ∧
    ((validMask image).value = some 0 ↔ ¬ (v = 2 ∨ v = 4 ∨ v = 5 ∨ v = 6 ∨ v = 7 ∨ v = 11)) ∧
    (v = 2 ∨ v = 4 ∨ v = 5 ∨ v = 6 ∨ v = 7 ∨ v = 11 → ∀ b, maskBySCL image b = image b) ∧
    (¬ (v = 2 ∨ v = 4 ∨ v = 5 ∨ v = 6 ∨ v = 7 ∨ v = 11) → ∀ b, maskBySCL image b = none) ∧
    (v = 0 ∨ v = 1 ∨ v = 3 ∨ v = 8 ∨ v = 9 ∨ v = 10 → ∀ b, maskBySCL image b = none) := by
  have hv := validMask_value image (v : ℚ) hscl
  have hcast : ((v : ℚ) = 2 ∨ (v : ℚ) = 4 ∨ (v : ℚ) = 5 ∨ (v : ℚ) = 6 ∨ (v : ℚ) = 7 ∨
      (v : ℚ) = 11) ↔ (v = 2 ∨ v = 4 ∨ v = 5 ∨ v = 6 ∨ v = 7 ∨ v = 11) := by
    norm_cast
  rw [if_congr hcast rfl rfl] at hv
  have hkeep : v = 2 ∨ v = 4 ∨ v = 5 ∨ v = 6 ∨ v = 7 ∨ v = 11 → ∀ b, maskBySCL image b = image b := by
    intro hin b
    rw [if_pos hin] at hv
    simp [maskBySCL, Pixel.updateMask, hv]
  have hdrop : ¬ (v = 2 ∨ v = 4 ∨ v = 5 ∨ v = 6 ∨ v = 7 ∨ v = 11) →
      ∀ b, maskBySCL image b = none := by
    intro hout b
    rw [if_neg hout] at hv
    simp [maskBySCL, Pixel.updateMask, hv]
  refine ⟨?_, ?_, hkeep, hdrop, ?_⟩
  · rw [hv]
    by_cases hin : v = 2 ∨ v = 4 ∨ v = 5 ∨ v = 6 ∨ v = 7 ∨ v = 11
    · simp [hin]
    · simp [hin]
  · rw [hv]
    by_cases hin : v = 2 ∨ v = 4 ∨ v = 5 ∨ v = 6 ∨ v = 7 ∨ v = 11
    · simp [hin]
    · simp [hin]
  · intro hcloud
    exact hdrop (by omega)

/-- Witness of C7: a vegetation pixel (SCL = 4) keeps its B8 value and a
cirrus pixel (SCL = 10) loses it. -/
theorem maskBySCL_keeps_valid_classes_witness :
    maskBySCL (samplePixel 3000 1000 4) "B8" = some 3000 ∧
    maskBySCL (samplePixel 3000 1000 10) "B8" = none :=
  ⟨(maskBySCL_keeps_valid_classes (samplePixel 3000 1000 4) 4 (by simp [samplePixel])).2.2.1
      (by decide) "B8",
   (maskBySCL_keeps_valid_classes (samplePixel 3000 1000 10) 10 (by simp [samplePixel])).2.2.2.2
      (by decide) "B8"⟩

/-- C8: the pre-fire window is [FIRE_DATE - 40 days, FIRE_DATE - 20 days) and
the post-fire window is [FIRE_DATE, FIRE_DATE + 61 days); for the fire date
2024-05-10 they run from 2024-03-31 to 2024-04-20 and from 2024-05-10 to
2024-07-10.  Every time in the pre window is before the fire date, every time
in the post window is on or after it, and no time is in both. -/
theorem temporal_windows :
    (∀ t, preFireWindow t = true ↔
      FIRE_DATE - 40 * msPerDay ≤ t ∧ t < FIRE_DATE - 20 * msPerDay) ∧
    (∀ t, postFireWindow t = true ↔ FIRE_DATE ≤ t ∧ t < FIRE_DATE + 61 * msPerDay) ∧
    dateOf FIRE_DATE = (2024, 5, 10) ∧
    PRE_START = eeDate 2024 3 31 ∧ dateOf PRE_START = (2024, 3, 31) ∧
    PRE_END = eeDate 2024 4 20 ∧ dateOf PRE_END = (2024, 4, 20) ∧
    POST_START = eeDate 2024 5 10 ∧ dateOf POST_START = (2024, 5, 10) ∧
    POST_END = eeDate 2024 7 10 ∧ dateOf POST_END = (2024, 7, 10) ∧
    (∀ t, preFireWindow t = true → t < FIRE_DATE) ∧
    (∀ t, postFireWindow t = true → FIRE_DATE ≤ t) ∧
    (∀ t, ¬ (preFireWindow t = true ∧ postFireWindow t = true)) := by
  have hpre : ∀ t, preFireWindow t = true ↔
      FIRE_DATE - 40 * msPerDay ≤ t ∧ t < FIRE_DATE - 20 * msPerDay := by
    intro t
    simp only [preFireWindow, filterDate, PRE_START, PRE_END, advanceDay, Bool.and_eq_true,
      decide_eq_true_eq]
    constructor <;> rintro ⟨h1, h2⟩ <;> constructor <;> linarith
  have hpost : ∀ t, postFireWindow t = true ↔
      FIRE_DATE ≤ t ∧ t < FIRE_DATE + 61 * msPerDay := by
    intro t
    simp only [postFireWindow, filterDate, POST_START, POST_END, advanceDay, Bool.and_eq_true,
      decide_eq_true_eq]
  have hday : (0 : ℤ) < msPerDay := by decide
  refine ⟨hpre, hpost, by decide, by decide, by decide, by decide, by decide, by decide,
    by decide, by decide, by decide, ?_, ?_, ?_⟩
  · intro t ht
    have := (hpre t).mp ht
    linarith
  · intro t ht
    exact ((hpost t).mp ht).1
  · rintro t ⟨h1, h2⟩
    have a := (hpre t).mp h1
    have b := (hpost t).mp h2
    linarith

/-- Witness of C8: noon of 2024-04-10 is in the pre-fire window, hence before
the fire date. -/
theorem temporal_windows_witness :
    eeDate 2024 4 10 + 43200000 < FIRE_DATE :=
  temporal_windows.2.2.2.2.2.2.2.2.2.2.2.1 (eeDate 2024 4 10 + 43200000) (by decide)

/-! ### Area statistics -/

/-- The per-pixel area image of a class: the pixel area where the pixel is in
the class, 0 where it is in another class, masked where dNBR is masked. -/
theorem areaImage_value (c : ℕ) (s : Site) :
    (areaImage c s).value =
      (siteClass s).map (fun k => (if k = c then 1 else 0) * s.pixelArea) := by
  unfold areaImage burnSeverity Band.eq Band.multiply Band.binop Band.rename siteClass
  cases (dNBR s.preImage s.postImage).value <;> simp [Nat.cast_inj]

/-- The area computed for a class is the area of the pixels in that class. -/
theorem computeAreaByClass_area (region : List Site) (c : ℕ) :
    (computeAreaByClass region c).area_m2 = classArea region c := by
  show reduceRegionSum (region.map (fun s => (areaImage c s).value)) = classArea region c
  unfold classArea reduceRegionSum
  induction region with
  | nil => rfl
  | cons s r ih =>
    rw [List.map_cons, areaImage_value c s]
    cases hs : siteClass s with
    | none =>
      have hstep : ∀ X : List (Option ℚ), List.filterMap id (none :: X) = List.filterMap id X :=
        fun _ => rfl
      rw [Option.map_none', hstep, ih]
      simp [List.filter_cons, hs]
    | some k =>
      have hstep : ∀ (v : ℚ) (X : List (Option ℚ)),
          List.filterMap id (some v :: X) = v :: List.filterMap id X := fun _ _ => rfl
      rw [Option.map_some', hstep, List.sum_cons, ih]
      by_cases hk : k = c
      · simp [List.filter_cons, hs, hk]
      · simp [List.filter_cons, hs, hk]

/-- The severity classes are 0, 1, ..., 7. -/
theorem severityClasses_eq : severityClasses = [0, 1, 2, 3, 4, 5, 6, 7] := by decide

/-- The class of an observed pixel is at most 7. -/
theorem siteClass_le (s : Site) (k : ℕ) (h : siteClass s = some k) : k ≤ 7 := by
  unfold siteClass at h
  cases hd : (dNBR s.preImage s.postImage).value with
  | none => simp [hd] at h
  | some d =>
    simp only [hd, Option.map_some', Option.some.injEq] at h
    rw [← h]
    exact (severityExpr_spec d).1

/-- The areas of the eight classes add up to the area of the observed pixels. -/
theorem sum_classArea (region : List Site) :
    (severityClasses.map (classArea region)).sum = observedArea region := by
  rw [severityClasses_eq]
  induction region with
  | nil => simp [classArea, observedArea]
  | cons s r ih =>
    have hobs : (dNBR s.preImage s.postImage).value.isSome = (siteClass s).isSome := by
      unfold siteClass
      cases (dNBR s.preImage s.postImage).value <;> rfl
    simp only [classArea, observedArea, List.map_cons, List.map_nil, List.sum_cons,
      List.sum_nil, List.filter_cons, hobs] at ih ⊢
    cases hs : siteClass s with
    | none => simpa [hs] using ih
    | some k =>
      have hk := siteClass_le s k hs
      interval_cases k <;> simp at ih ⊢ <;> linarith

/-- The sum of the computed class areas is the area of the observed pixels. -/
theorem aggregate_sum_areaBySeverity (region : List Site) :
    aggregate_sum (areaBySeverity region) = observedArea region := by
  rw [← sum_classArea]
  simp [aggregate_sum, areaBySeverity, List.map_map, Function.comp_def,
    computeAreaByClass_area]

/-- The total area in square kilometres is always defined. -/
theorem totalAreaKm2_eq (fc : List AreaFeature) :
    totalAreaKm2 fc = some (aggregate_sum fc / 1000000) := by
  simp [totalAreaKm2, eeDivide]

/-- The mapped function of `areaStatsFinal` when the total area is positive. -/
theorem addPercent_pos (fc : List AreaFeature) (f : AreaFeature) (h : 0 < aggregate_sum fc) :
    addPercent (totalAreaKm2 fc) f =
      { severity_class := f.severity_class
        area_m2 := f.area_m2
        area_km2 := some (f.area_m2 / 1000000)
        percent_of_fire := some (f.area_m2 / 1000000 / (aggregate_sum fc / 1000000) * 100) } := by
  have ht : 0 < aggregate_sum fc / 1000000 := by positivity
  simp [addPercent, totalAreaKm2_eq, eeDivide, ht, ht.ne', h.ne']

/-- The mapped function of `areaStatsFinal` when the total area is not positive. -/
theorem addPercent_nonpos (fc : List AreaFeature) (f : AreaFeature)
    (h : aggregate_sum fc ≤ 0) :
    addPercent (totalAreaKm2 fc) f =
      { severity_class := f.severity_class
        area_m2 := f.area_m2
        area_km2 := some (f.area_m2 / 1000000)
        percent_of_fire := some 0 } := by
  have ht : ¬ 0 < aggregate_sum fc / 1000000 := by
    rw [not_lt]
    exact div_nonpos_of_nonpos_of_nonneg h (by norm_num)
  simp [addPercent, totalAreaKm2_eq, eeDivide, ht]

/-- The observed pixel of the sample perimeter has dNBR 0 and class 3. -/
theorem siteClass_sample_unchanged (a : ℚ) :
    siteClass ⟨a, samplePixel 3000 1000 4, samplePixel 3000 1000 4⟩ = some 3 := by
  simp only [siteClass, dNBR_value, calculateNBR_value]
  simp [samplePixel]
  norm_num [severityExpr]

/-- The pixel of the sample perimeter without a post-fire observation has no class. -/
theorem siteClass_sample_masked (a : ℚ) :
    siteClass ⟨a, samplePixel 3000 1000 4, maskedPixel⟩ = none := by
  simp only [siteClass, dNBR_value, calculateNBR_value]
  simp [samplePixel, maskedPixel]

/-- The observed area of the sample perimeter is the area of its one observed pixel. -/
theorem observedArea_sample : observedArea sampleRegion = 100 := by
  have h1 : (dNBR (samplePixel 3000 1000 4) (samplePixel 3000 1000 4)).value.isSome = true := by
    simp only [dNBR_value, calculateNBR_value]
    simp [samplePixel]
  have h2 : (dNBR (samplePixel 3000 1000 4) maskedPixel).value.isSome = false := by
    simp only [dNBR_value, calculateNBR_value]
    simp [samplePixel, maskedPixel]
  simp [observedArea, sampleRegion, List.filter_cons, h1, h2]

/-- The area of class 3 in the sample perimeter. -/
theorem classArea_sample : classArea sampleRegion 3 = 100 := by
  simp [classArea, sampleRegion, List.filter_cons, siteClass_sample_unchanged,
    siteClass_sample_masked]

/-- What `areaStatsFinal` computes on the class areas of a perimeter: the
total it divides by is the sum of the eight class areas, which is the area of
the pixels whose dNBR is not masked; when that area is positive,
`percent_of_fire` of a class is 100 times the area of the class divided by
it, and `area_km2` is `area_m2 / 1e6`. -/
theorem percent_of_observed_fire_area (region : List Site) :
    aggregate_sum (areaBySeverity region) = observedArea region ∧
    (areaStatsFinal (areaBySeverity region)).map (fun g => g.severity_class)
      = [0, 1, 2, 3, 4, 5, 6, 7] ∧
    ∀ g ∈ areaStatsFinal (areaBySeverity region),
      g.area_m2 = classArea region g.severity_class ∧
      g.area_km2 = some (g.area_m2 / 1000000) ∧
      (0 < observedArea region →
        g.percent_of_fire = some (100 * g.area_m2 / observedArea region)) := by
  have hsum := aggregate_sum_areaBySeverity region
  refine ⟨hsum, ?_, ?_⟩
  · simp [areaStatsFinal, areaBySeverity, severityClasses_eq, addPercent, computeAreaByClass]
  · intro g hg
    obtain ⟨f, hf, rfl⟩ := List.mem_map.mp hg
    obtain ⟨c, -, rfl⟩ := List.mem_map.mp hf
    refine ⟨computeAreaByClass_area region c, ?_, ?_⟩
    · simp [addPercent, eeDivide]
    · intro hpos
      have hpos2 : 0 < aggregate_sum (areaBySeverity region) := by
        rw [hsum]
        exact hpos
      rw [addPercent_pos _ _ hpos2, hsum]
      simp only [Option.some.injEq]
      field_simp
      ring

/-- C5, the code on a perimeter of two pixels of 100 square metres, one
unchanged by the fire and one whose dNBR is masked: the fire perimeter has
area 200 square metres (0.0002 square kilometres), but `totalAreaKm2` is
0.0001, the masked pixel being in no class; class 3 has area 100, which is 50
percent of the fire area, and its `percent_of_fire` is 100. -/
theorem percent_of_fire_omits_masked_area :
    0 < perimeterArea sampleRegion ∧
    perimeterArea sampleRegion / 1000000 = 2 / 10000 ∧
    totalAreaKm2 (areaBySeverity sampleRegion) = some (1 / 10000) ∧
    ∃ g ∈ areaStatsFinal (areaBySeverity sampleRegion),
      g.severity_class = 3 ∧ g.area_m2 = 100 ∧
      100 * g.area_m2 / perimeterArea sampleRegion = 50 ∧
      g.percent_of_fire = some 100 ∧
      g.percent_of_fire ≠ some (100 * g.area_m2 / perimeterArea sampleRegion) := by
  have hper : perimeterArea sampleRegion = 200 := by
    simp [perimeterArea, sampleRegion]
    norm_num
  have hsum : aggregate_sum (areaBySeverity sampleRegion) = 100 := by
    rw [aggregate_sum_areaBySeverity, observedArea_sample]
  have hpos : 0 < aggregate_sum (areaBySeverity sampleRegion) := by
    rw [hsum]
    norm_num
  have harea : (computeAreaByClass sampleRegion 3).area_m2 = 100 := by
    rw [computeAreaByClass_area, classArea_sample]
  refine ⟨by rw [hper]; norm_num, by rw [hper]; norm_num, ?_,
    addPercent (totalAreaKm2 (areaBySeverity sampleRegion)) (computeAreaByClass sampleRegion 3),
    ?_, ?_⟩
  · rw [totalAreaKm2_eq, hsum]
    norm_num
  · refine List.mem_map.mpr ⟨computeAreaByClass sampleRegion 3, ?_, rfl⟩
    refine List.mem_map.mpr ⟨3, ?_, rfl⟩
    rw [severityClasses_eq]
    decide
  · rw [addPercent_pos _ _ hpos, hsum, harea, hper]
    refine ⟨rfl, rfl, by norm_num, by norm_num, ?_⟩
    intro h
    rw [Option.some.injEq] at h
    norm_num at h

/-- The sum of the class areas is not negative when no class area is. -/
theorem aggregate_sum_nonneg (fc : List AreaFeature) (hnn : ∀ f ∈ fc, 0 ≤ f.area_m2) :
    0 ≤ aggregate_sum fc := by
  unfold aggregate_sum
  apply List.sum_nonneg
  intro x hx
  obtain ⟨f, hf, rfl⟩ := List.mem_map.mp hx
  exact hnn f hf

/-- C6: for non-negative class areas (any number of them, in particular
eight) `totalAreaKm2` is a number t, the sum of the areas over 1e6, that is 0
or positive.  If t = 0, `areaStatsFinal` has one feature per class, in order,
with `area_km2 = area_m2 / 1e6` and `percent_of_fire = 0`, a value that holds
no division by zero.  If t > 0, the divisor t is non-zero, the division of
every `area_km2` by t succeeds, and `areaStatsFinal` has one feature per
class, in order, with `percent_of_fire = (area_km2 / totalAreaKm2) * 100`. -/
theorem percent_zero_division_guarded (fc : List AreaFeature)
    (hnn : ∀ f ∈ fc, 0 ≤ f.area_m2) :
    ∃ t, totalAreaKm2 fc = some t ∧ t = aggregate_sum fc / 1000000 ∧ 0 ≤ t ∧
      (t = 0 →
        areaStatsFinal fc = fc.map (fun f =>
          { severity_class := f.severity_class
            area_m2 := f.area_m2
            area_km2 := some (f.area_m2 / 1000000)
            percent_of_fire := some 0 })) ∧
      (0 < t → t ≠ 0 ∧
        (∀ f ∈ fc, eeDivide (f.area_m2 / 1000000) t = some (f.area_m2 / 1000000 / t)) ∧
        areaStatsFinal fc = fc.map (fun f =>
          { severity_class := f.severity_class
            area_m2 := f.area_m2
            area_km2 := some (f.area_m2 / 1000000)
            percent_of_fire := some (f.area_m2 / 1000000 / t * 100) })) := by
  have h0 := aggregate_sum_nonneg fc hnn
  refine ⟨aggregate_sum fc / 1000000, totalAreaKm2_eq fc, rfl, by positivity, ?_, ?_⟩
  · intro ht
    have hle : aggregate_sum fc ≤ 0 := by
      have := (div_eq_zero_iff.mp ht).resolve_right (by norm_num)
      exact this.le
    unfold areaStatsFinal
    apply List.map_congr_left
    intro f _
    exact addPercent_nonpos fc f hle
  · intro ht
    have hpos : 0 < aggregate_sum fc := by
      by_contra hneg
      have hz : aggregate_sum fc = 0 := le_antisymm (not_lt.mp hneg) h0
      rw [hz, zero_div] at ht
      exact lt_irrefl _ ht
    refine ⟨ht.ne', ?_, ?_⟩
    · intro f _
      simp [eeDivide, ht.ne']
    · unfold areaStatsFinal
      apply List.map_congr_left
      intro f _
      exact addPercent_pos fc f hpos

/-- Witness of C6: on `sampleAreas` (3 and 1 square kilometres in classes 3
and 6) the percentages are 75 and 25 and 0 elsewhere; on `emptyAreas` (total
0) every percentage is 0. -/
theorem percent_zero_division_guarded_witness :
    (areaStatsFinal sampleAreas).map (fun g => (g.severity_class, g.area_km2, g.percent_of_fire))
      = [(0, some 0, some 0), (1, some 0, some 0), (2, some 0, some 0), (3, some 3, some 75),
         (4, some 0, some 0), (5, some 0, some 0), (6, some 1, some 25), (7, some 0, some 0)] ∧
    (areaStatsFinal emptyAreas).map (fun g => (g.severity_class, g.area_km2, g.percent_of_fire))
      = [(0, some 0, some 0), (1, some 0, some 0), (2, some 0, some 0), (3, some 0, some 0),
         (4, some 0, some 0), (5, some 0, some 0), (6, some 0, some 0), (7, some 0, some 0)] := by
  constructor
  · obtain ⟨t, -, hteq, -, -, hp⟩ :=
      percent_zero_division_guarded sampleAreas (by simp [sampleAreas])
    have ht : t = 4 := by
      rw [hteq]
      norm_num [aggregate_sum, sampleAreas]
    subst ht
    rw [(hp (by norm_num)).2.2]
    simp [sampleAreas]
    norm_num
  · obtain ⟨t, -, hteq, -, hz, -⟩ :=
      percent_zero_division_guarded emptyAreas (by simp [emptyAreas])
    have ht : t = 0 := by
      rw [hteq]
      norm_num [aggregate_sum, emptyAreas]
    rw [hz ht]
    simp [emptyAreas]

/-- The percentages of `areaStatsFinal` when the total area is positive. -/
theorem percent_list_pos (fc : List AreaFeature) (h : 0 < aggregate_sum fc) :
    (areaStatsFinal fc).map (fun g => g.percent_of_fire) =
      (fc.map (fun f => f.area_m2 * (100 / aggregate_sum fc))).map some := by
  unfold areaStatsFinal
  rw [List.map_map, List.map_map]
  apply List.map_congr_left
  intro f _
  simp only [Function.comp_apply, addPercent_pos fc f h, Option.some.injEq]
  have hne := h.ne'
  field_simp

/-- The percentages of `areaStatsFinal` when the total area is zero. -/
theorem percent_list_zero (fc : List AreaFeature) (h : aggregate_sum fc = 0) :
    (areaStatsFinal fc).map (fun g => g.percent_of_fire) =
      (fc.map (fun _ => (0 : ℚ))).map some := by
  unfold areaStatsFinal
  rw [List.map_map, List.map_map]
  apply List.map_congr_left
  intro f _
  simp only [Function.comp_apply, addPercent_nonpos fc f h.le]

/-- C9: for non-negative class areas (any number of them, in particular
eight) with a positive total, every `percent_of_fire` is a number between 0
and 100 and the percentages sum to exactly 100; when the total is 0 they are
numbers that sum to 0. -/
theorem percent_distribution (fc : List AreaFeature) (hnn : ∀ f ∈ fc, 0 ≤ f.area_m2) :
    (0 < aggregate_sum fc →
      ∃ ps : List ℚ, (areaStatsFinal fc).map (fun g => g.percent_of_fire) = ps.map some ∧
        (∀ p ∈ ps, 0 ≤ p ∧ p ≤ 100) ∧ ps.sum = 100) ∧
    (aggregate_sum fc = 0 →
      ∃ ps : List ℚ, (areaStatsFinal fc).map (fun g => g.percent_of_fire) = ps.map some ∧
        ps.sum = 0) := by
  constructor
  · intro hpos
    refine ⟨fc.map (fun f => f.area_m2 * (100 / aggregate_sum fc)), percent_list_pos fc hpos,
      ?_, ?_⟩
    · intro p hp
      obtain ⟨f, hf, rfl⟩ := List.mem_map.mp hp
      have hle : f.area_m2 ≤ aggregate_sum fc := by
        unfold aggregate_sum
        apply List.single_le_sum
        · intro x hx
          obtain ⟨f2, hf2, rfl⟩ := List.mem_map.mp hx
          exact hnn f2 hf2
        · exact List.mem_map.mpr ⟨f, hf, rfl⟩
      have h0 := hnn f hf
      constructor
      · positivity
      · rw [← mul_div_assoc, div_le_iff₀ hpos]
        nlinarith
    · rw [List.sum_map_mul_right]
      show aggregate_sum fc * (100 / aggregate_sum fc) = 100
      field_simp
  · intro hzero
    refine ⟨fc.map (fun _ => (0 : ℚ)), percent_list_zero fc hzero, ?_⟩
    simp

/-- Witness of C9 on `sampleAreas` (total 4 square kilometres) and on
`emptyAreas` (total 0). -/
theorem percent_distribution_witness :
    (∃ ps : List ℚ, (areaStatsFinal sampleAreas).map (fun g => g.percent_of_fire) = ps.map some ∧
        (∀ p ∈ ps, 0 ≤ p ∧ p ≤ 100) ∧ ps.sum = 100) ∧
    (∃ ps : List ℚ, (areaStatsFinal emptyAreas).map (fun g => g.percent_of_fire) = ps.map some ∧
        ps.sum = 0) :=
  ⟨(percent_distribution sampleAreas (by simp [sampleAreas])).1
      (by norm_num [aggregate_sum, sampleAreas]),
   (percent_distribution emptyAreas (by simp [emptyAreas])).2
      (by norm_num [aggregate_sum, emptyAreas])⟩

/-! ### Labels -/

/-- Every class has a dictionary entry, which is the legend label of the class. -/
theorem label_lookup (i : ℕ) (hi : i ∈ severityClasses) :
    ∃ l, severityLabelDict.lookup i = some l ∧ severityLabels[i]? = some l := by
  rw [severityClasses_eq] at hi
  simp only [List.mem_cons, List.mem_singleton, List.not_mem_nil, or_false] at hi
  rcases hi with rfl | rfl | rfl | rfl | rfl | rfl | rfl | rfl
  · exact ⟨"High Regrowth", rfl, rfl⟩
  · exact ⟨"Low Regrowth", rfl, rfl⟩
  · exact ⟨"Unburned", rfl, rfl⟩
  · exact ⟨"Low Severity", rfl, rfl⟩
  · exact ⟨"Moderate-Low Severity", rfl, rfl⟩
  · exact ⟨"Moderate-High Severity", rfl, rfl⟩
  · exact ⟨"High Severity", rfl, rfl⟩
  · exact ⟨"Extreme Severity", rfl, rfl⟩

/-- The classes and labels of `areaStatsLabeled`, for any perimeter. -/
theorem areaStatsLabeled_labels (region : List Site) :
    (areaStatsLabeled (areaStatsFinal (areaBySeverity region))).map
        (fun g => (g.stats.severity_class, g.severity_label)) =
      [(0, some "High Regrowth"), (1, some "Low Regrowth"), (2, some "Unburned"),
       (3, some "Low Severity"), (4, some "Moderate-Low Severity"),
       (5, some "Moderate-High Severity"), (6, some "High Severity"),
       (7, some "Extreme Severity")] := by
  have h : (areaStatsLabeled (areaStatsFinal (areaBySeverity region))).map
      (fun g => (g.stats.severity_class, g.severity_label)) =
      severityClasses.map (fun c => (c, severityLabelDict.lookup c)) := by
    simp [areaStatsLabeled, areaStatsFinal, areaBySeverity, List.map_map, Function.comp_def,
      addPercent, computeAreaByClass]
  rw [h, severityClasses_eq]
  rfl

/-- C10: the classes are 0..7, which are the only values the thresholding
expression produces; the palette and the legend labels have length 8; every
class has an entry in `severityLabelDict` that equals `severityLabels[i]`.
For every perimeter `areaStatsLabeled` is the features of `areaStatsFinal`,
each with a label added: eight features, one per class 0..7 in order, labelled
'High Regrowth', ..., 'Extreme Severity', the legend label of the class.  The
legend has eight rows, each palette colour with its label. -/
theorem labels_cover_every_class :
    severityClasses = [0, 1, 2, 3, 4, 5, 6, 7] ∧
    (∀ d : ℚ, severityExpr d ∈ severityClasses) ∧
    severityPalette.length = 8 ∧ severityLabels.length = 8 ∧
    (∀ i ∈ severityClasses,
      ∃ l, severityLabelDict.lookup i = some l ∧ severityLabels[i]? = some l) ∧
    (∀ region : List Site, ∀ g ∈ areaStatsLabeled (areaStatsFinal (areaBySeverity region)),
      ∃ l, g.severity_label = some l ∧ severityLabels[g.stats.severity_class]? = some l) ∧
    (∀ row ∈ legendRows, ∃ l, row.2 = some l) ∧
    (∀ region : List Site,
      (areaStatsLabeled (areaStatsFinal (areaBySeverity region))).map (fun g => g.stats) =
        areaStatsFinal (areaBySeverity region)) ∧
    (∀ region : List Site,
      (areaStatsLabeled (areaStatsFinal (areaBySeverity region))).map
          (fun g => (g.stats.severity_class, g.severity_label)) =
        [(0, some "High Regrowth"), (1, some "Low Regrowth"), (2, some "Unburned"),
         (3, some "Low Severity"), (4, some "Moderate-Low Severity"),
         (5, some "Moderate-High Severity"), (6, some "High Severity"),
         (7, some "Extreme Severity")]) ∧
    legendRows =
      [("#006400", some "High Regrowth"), ("#7FFF00", some "Low Regrowth"),
       ("#FFFFCC", some "Unburned"), ("#FFFF00", some "Low Severity"),
       ("#FEC965", some "Moderate-Low Severity"), ("#FD8D3C", some "Moderate-High Severity"),
       ("#B10026", some "High Severity"), ("#4B0000", some "Extreme Severity")] := by
  refine ⟨severityClasses_eq, ?_, rfl, rfl, label_lookup, ?_, ?_, ?_, areaStatsLabeled_labels,
    rfl⟩
  · intro d
    have hle := (severityExpr_spec d).1
    rw [severityClasses_eq]
    generalize severityExpr d = k at hle
    interval_cases k <;> simp
  · intro region g hg
    obtain ⟨st, hst, rfl⟩ := List.mem_map.mp hg
    obtain ⟨f, hf, rfl⟩ := List.mem_map.mp hst
    obtain ⟨c, hc, rfl⟩ := List.mem_map.mp hf
    exact label_lookup c hc
  · intro row hrow
    simp only [legendRows, severityPalette, severityLabels, List.enum, List.enumFrom,
      List.map_cons, List.map_nil, List.mem_cons, List.mem_singleton, List.not_mem_nil,
      or_false] at hrow
    rcases hrow with rfl | rfl | rfl | rfl | rfl | rfl | rfl | rfl <;> exact ⟨_, rfl⟩
  · intro region
    simp [areaStatsLabeled, List.map_map, Function.comp_def]

/-- Witness of C10: class 3 has a dictionary entry equal to its legend label,
and on the sample perimeter the export has the eight classes with their
labels. -/
theorem labels_cover_every_class_witness :
    (∃ l, severityLabelDict.lookup 3 = some l ∧ severityLabels[3]? = some l) ∧
    (areaStatsLabeled (areaStatsFinal (areaBySeverity sampleRegion))).map
        (fun g => (g.stats.severity_class, g.severity_label)) =
      [(0, some "High Regrowth"), (1, some "Low Regrowth"), (2, some "Unburned"),
       (3, some "Low Severity"), (4, some "Moderate-Low Severity"),
       (5, some "Moderate-High Severity"), (6, some "High Severity"),
       (7, some "Extreme Severity")] :=
  ⟨labels_cover_every_class.2.2.2.2.1 3 (by rw [severityClasses_eq]; decide),
   labels_cover_every_class.2.2.2.2.2.2.2.2.1 sampleRegion⟩

/-- C4, the code at a pixel whose NBR did not change: dNBR is 0, the class is
3, and class 3 is labelled 'Low Severity' in `severityLabelDict` and
`severityLabels` and coloured '#FFFF00'; 'Unburned' and '#FFFFCC' belong to
class 2, which holds dNBR in [-0.251, -0.101).  Likewise dNBR = 0.1 is in
class 4, 'Moderate-Low Severity'. -/
theorem unchanged_pixel_labelled_low_severity :
    dNBR (samplePixel 3000 1000 4) (samplePixel 3000 1000 4) = ⟨"dNBR", some 0⟩ ∧
    burnSeverity (samplePixel 3000 1000 4) (samplePixel 3000 1000 4) = ⟨"severity", some 3⟩ ∧
    severityExpr (0 : ℚ) = 3 ∧
    severityLabelDict.lookup 3 = some "Low Severity" ∧
    severityLabels[3]? = some "Low Severity" ∧
    severityPalette[3]? = some "#FFFF00" ∧
    severityLabelDict.lookup 2 = some "Unburned" ∧
    severityLabels[2]? = some "Unburned" ∧
    severityPalette[2]? = some "#FFFFCC" ∧
    severityExpr (-0.2 : ℚ) = 2 ∧
    severityExpr (0.1 : ℚ) = 4 ∧
    severityLabelDict.lookup 4 = some "Moderate-Low Severity" := by
  have hd : (dNBR (samplePixel 3000 1000 4) (samplePixel 3000 1000 4)).value = some 0 := by
    simp only [dNBR_value, calculateNBR_value]
    simp [samplePixel]
  have h0 : severityExpr (0 : ℚ) = 3 := by norm_num [severityExpr]
  refine ⟨?_, ?_, h0, rfl, rfl, rfl, rfl, rfl, rfl, by norm_num [severityExpr],
    by norm_num [severityExpr], rfl⟩
  · have hn : (dNBR (samplePixel 3000 1000 4) (samplePixel 3000 1000 4)).name = "dNBR" := rfl
    cases hc : dNBR (samplePixel 3000 1000 4) (samplePixel 3000 1000 4) with
    | mk n v =>
      rw [hc] at hd hn
      simp only at hd hn
      rw [hd, hn]
  · simp only [burnSeverity, hd, Option.map_some', h0]
    rfl

end FortNelson
